import Mathlib

/-!
Shallow embedding of two HotSpot C2 peephole passes:

* `opto/stringIndexer.cpp` — `StringIndexer`: folding of a character read
  from a compile-time-constant `String` at a compile-time-constant index.
* `opto/stringBuilderOptimization.cpp` — `StringBuilderOptimization`:
  fusion of two control-adjacent `StringBuilder.append(char)` calls into
  one `append(char, char)` call.

The IR graph is embedded as a list of nodes, each with a kind, an optional
resolved method, and an ordered list of value inputs (`Option Nat` — `none`
models a null edge).  Def-use ("out") edges are derived from the input
edges; def-use iteration order is modelled as node-index order.  The
`TypeFunc` edge indices of C2 are fixed numerals: Control = 0, I_O = 1,
Memory = 2, FramePtr = 3, ReturnAdr = 4, Parms (receiver) = 5, so a call's
first value argument sits at slot 6 and its second at slot 7.
-/

namespace SIdx

/-- The `coder` discriminator of `java.lang.String`:
`CODER_LATIN1` (one byte per character) or `CODER_UTF16` (two bytes). -/
inductive Coder where
  | latin1
  | utf16
deriving DecidableEq

/-- The backing `value` array of a constant string: its contents as signed
byte values (`jbyte`, i.e. arbitrary `Int` standing for [-128, 127]) plus
the `is_type_array` classification queried by `is_valid_range`. -/
structure ValueArr where
  isTypeArray : Bool
  bytes : List Int
deriving DecidableEq

/-- A constant `java.lang.String` object as seen through the compile-time
constant-object query surface: its `value` field (possibly null) and its
`coder` field. -/
structure StrOop where
  value : Option ValueArr
  coder : Coder
deriving DecidableEq

/-- The state of one `StringIndexer` instance: `_str` collapsed to the
constant string it denotes when `is_Con && isa_oopptr && const_oop`
all hold (`none` otherwise), and `_index` collapsed to the constant
integer it denotes when it is a constant int (`none` otherwise). -/
structure Indexer where
  str : Option StrOop
  index : Option Int
deriving DecidableEq

/-- `StringIndexer::is_constant_string`. -/
def is_constant_string (s : Indexer) : Bool :=
  s.str.isSome

/-- `ciTypeArray::byte_at`: the signed byte at a position. -/
def byte_at (arr : ValueArr) (i : Int) : Int :=
  arr.bytes.getD i.toNat 0

/-- `StringIndexer::is_valid_range`, line for line: constant index check,
negative-index rejection, fetch of the backing array (null / non-type-array
rejection), halving of the length for UTF16, and the final `index < length`
comparison.  (The C++ also stores `_start_idx`/`_end_idx`; those fields are
only read back by `generate_optimized_code`, which re-reads the index here,
so they are not separate state in the model.) -/
def is_valid_range (s : Indexer) : Bool :=
  match s.index with
  | none => false
  | some idx =>
    if idx < 0 then false
    else
      match s.str with
      | none => false
      | some so =>
        match so.value with
        | none => false
        | some arr =>
          if !arr.isTypeArray then false
          else
            let len0 := arr.bytes.length
            let len := if so.coder = Coder.utf16 then len0 / 2 else len0
            decide (idx < (len : Int))

/-- `StringIndexer::can_optimize`. -/
def can_optimize (s : Indexer) : Bool :=
  is_constant_string s && is_valid_range s

/-- `StringIndexer::generate_optimized_code`.  `le` is the compile-time
`VM_LITTLE_ENDIAN` switch of the host.  For LATIN1 the byte is masked with
0xFF (`% 256` on the sign-extended value); for UTF16 the two bytes at
`2*index` and `2*index+1` are masked and recombined with the shifts chosen
by the endianness switch.  The C++ would dereference a non-constant string
here; the model returns `none` on those (unreachable) paths. -/
def generate_optimized_code (le : Bool) (s : Indexer) : Option Nat :=
  match s.str with
  | none => none
  | some so =>
    match so.value, s.index with
    | some arr, some idx =>
      if so.coder = Coder.latin1 then
        some ((byte_at arr idx) % 256).toNat
      else
        let shiftHigh : Nat := if le then 0 else 8
        let shiftLow : Nat := if le then 8 else 0
        let b1 : Nat := ((byte_at arr (idx * 2)) % 256).toNat
        let b2 : Nat := ((byte_at arr (idx * 2 + 1)) % 256).toNat
        some ((b1 <<< shiftHigh) ||| (b2 <<< shiftLow))
    | _, _ => none

/-- `StringIndexer::optimize`: `nullptr` when `can_optimize` fails,
otherwise the folded character constant. -/
def optimize (le : Bool) (s : Indexer) : Option Nat :=
  if can_optimize s then generate_optimized_code le s else none

/-- Decoded character count of a constant string, following the spec's
encoding-discriminator rule: buffer length for single-byte encoding,
buffer length divided by two for double-byte encoding. -/
def decodedLength (so : StrOop) (arr : ValueArr) : Nat :=
  if so.coder = Coder.utf16 then arr.bytes.length / 2 else arr.bytes.length

/-- The fixed byte-ordering convention of the host for UTF16 code units,
written arithmetically: on a little-endian host the byte at the even
position is the low byte, on a big-endian host it is the high byte. -/
def combineUTF16 (le : Bool) (b1 b2 : Nat) : Nat :=
  if le then b1 + 256 * b2 else 256 * b1 + b2

end SIdx

namespace SBOpt

/-- Node kinds needed by the pass: `CallStaticJavaNode`, `ProjNode` with its
`_con` field, integer constants (`ConINode`, carrying their value so that
append arguments can be decoded), and any other (value) node. -/
inductive NKind where
  | callStaticJava
  | proj (con : Nat)
  | conI (v : Nat)
  | other
deriving DecidableEq

/-- The declaring class of a resolved method: the two recognized
string-builder classes or anything else. -/
inductive Klass where
  | stringBuilderK
  | stringBufferK
  | otherK
deriving DecidableEq

/-- Method name: the recognized `append` identifier or anything else. -/
inductive MName where
  | appendM
  | otherM
deriving DecidableEq

/-- Method signature shape: one char parameter, two char parameters, or
anything else. -/
inductive MSig where
  | charS
  | charCharS
  | otherS
deriving DecidableEq

/-- A resolved `ciMethod`: declaring class, name and signature shape. -/
structure MethodRef where
  holder : Klass
  mname : MName
  msig : MSig
deriving DecidableEq

/-- One IR node: kind, the resolved target of a call (`none` both for
unresolved calls and for non-call nodes), and the ordered input edges. -/
structure GNode where
  kind : NKind
  method : Option MethodRef
  ins : List (Option Nat)
deriving DecidableEq

/-- The IR graph: nodes indexed by position; `unique` (the next fresh node
index, as in `Compile::unique`) is the length. -/
structure Graph where
  nodes : List GNode
deriving DecidableEq

def Graph.unique (g : Graph) : Nat := g.nodes.length

/-- Node lookup (`root()->find(i)` in the scan loop). -/
def nodeAt (g : Graph) (n : Nat) : Option GNode := g.nodes[n]?

/-- `n->in(i)`: the input edge `i` of node `n`; `none` for a null edge,
a missing node or an out-of-range slot. -/
def getIn (g : Graph) (n i : Nat) : Option Nat :=
  match nodeAt g n with
  | none => none
  | some nd => nd.ins.getD i none

/-- `n->is_CallStaticJava()`. -/
def isCallStaticJava (g : Graph) (n : Nat) : Bool :=
  match nodeAt g n with
  | some nd =>
    match nd.kind with
    | NKind.callStaticJava => true
    | _ => false
  | none => false

/-- `n->is_Proj() && n->as_Proj()->_con == which`. -/
def isProjCon (g : Graph) (n which : Nat) : Bool :=
  match nodeAt g n with
  | some nd =>
    match nd.kind with
    | NKind.proj con => con == which
    | _ => false
  | none => false

/-- The def-use successors of `n` (nodes having `n` among their inputs),
in node-index order (the model's rendering of `fast_outs` order). -/
def outs (g : Graph) (n : Nat) : List Nat :=
  (List.range g.unique).filter (fun m =>
    match nodeAt g m with
    | some nd => nd.ins.contains (some n)
    | none => false)

/-- `Node::is_CFG`, fuel-bounded: calls are CFG nodes; a projection is a
CFG node when its `_con` is Control (0) and its source is a CFG node;
everything else is not.  The fuel (instantiated with `g.unique`) bounds the
recursion through projection chains; a cyclic projection chain — on which
the C++ virtual-call recursion would not terminate — evaluates to `false`. -/
def isCFGFuel (g : Graph) : Nat → Nat → Bool
  | 0, _ => false
  | fuel + 1, n =>
    match nodeAt g n with
    | none => false
    | some nd =>
      match nd.kind with
      | NKind.callStaticJava => true
      | NKind.proj con =>
        con == 0 &&
          (match nd.ins.getD 0 none with
           | some m => isCFGFuel g fuel m
           | none => false)
      | _ => false

def is_CFG (g : Graph) (n : Nat) : Bool := isCFGFuel g g.unique n

/-- Accumulator loop of `Node::unique_ctrl_out_or_null`: scan the outs;
for each CFG successor distinct from the node itself, return "null" when a
different one was already found, otherwise record it and continue. -/
def uniqueCtrlOutAux (g : Graph) (self : Nat) : List Nat → Option Nat → Option Nat
  | [], found => found
  | u :: rest, found =>
    if is_CFG g u ∧ u ≠ self then
      if found ≠ none ∧ found ≠ some u then none
      else uniqueCtrlOutAux g self rest (some u)
    else uniqueCtrlOutAux g self rest found

/-- `Node::unique_ctrl_out_or_null`. -/
def unique_ctrl_out_or_null (g : Graph) (n : Nat) : Option Nat :=
  uniqueCtrlOutAux g n (outs g n) none

/-- `CallNode::proj_out_or_null(which)`: first projection among the outs
with the requested `_con`. -/
def proj_out_or_null (g : Graph) (n which : Nat) : Option Nat :=
  (outs g n).find? (fun u => isProjCon g u which)

/-- The ambient `ciEnv` slice used by the pass: whether
`append(char,char)` resolves on the StringBuilder class and on the
StringBuffer class.  (Method resolution is an external collaborator;
only these two lookups are consumed.) -/
structure CiEnv where
  sbHasCharChar : Bool
  sbufHasCharChar : Bool
deriving DecidableEq

/-- The resolution sequence of `create_append_char_char_call`:
`StringBuilder_klass()->find_method(append, (CC)C...)`, falling back to
`StringBuffer_klass()`, or `none` when both fail. -/
def find_method_char_char (env : CiEnv) : Option MethodRef :=
  if env.sbHasCharChar then
    some ⟨Klass.stringBuilderK, MName.appendM, MSig.charCharS⟩
  else if env.sbufHasCharChar then
    some ⟨Klass.stringBufferK, MName.appendM, MSig.charCharS⟩
  else none

/-- `StringBuilderOptimization::is_append_char_call`: resolved method,
holder one of the two recognized classes, name `append`, signature exactly
one char parameter.  (The C++ re-assigns `char_sig` in a dead branch for
the StringBuffer holder; the comparison target is the char signature either
way.) -/
def is_append_char_call (g : Graph) (n : Nat) : Bool :=
  match nodeAt g n with
  | none => false
  | some nd =>
    match nd.method with
    | none => false
    | some m =>
      (m.holder == Klass.stringBuilderK || m.holder == Klass.stringBufferK) &&
        m.mname == MName.appendM && m.msig == MSig.charS

/-- `StringBuilderOptimization::is_append_char_char_call`: the same shape
check against the two-char signature. -/
def is_append_char_char_call (g : Graph) (n : Nat) : Bool :=
  match nodeAt g n with
  | none => false
  | some nd =>
    match nd.method with
    | none => false
    | some m =>
      (m.holder == Klass.stringBuilderK || m.holder == Klass.stringBufferK) &&
        m.mname == MName.appendM && m.msig == MSig.charCharS

/-- Body of the successor scan in `find_next_append_char_call` for one use
`u` of the call's control projection: `u` must be a Control projection, its
unique control out must exist and be a `CallStaticJavaNode`, that call must
match `is_append_char_call`, and its receiver edge (slot `Parms` = 5) must
be the identical producer node as the receiver edge of `c`. -/
def qualifies_as_next (g : Graph) (c u : Nat) : Option Nat :=
  if isProjCon g u 0 then
    match unique_ctrl_out_or_null g u with
    | none => none
    | some nx =>
      if isCallStaticJava g nx ∧ is_append_char_call g nx ∧
          getIn g nx 5 = getIn g c 5 then
        some nx
      else none
  else none

/-- The scan loop of `find_next_append_char_call`: first qualifying
successor in def-use enumeration order, else "not found". -/
def findNextAux (g : Graph) (c : Nat) : List Nat → Option Nat
  | [] => none
  | u :: rest =>
    match qualifies_as_next g c u with
    | some nx => some nx
    | none => findNextAux g c rest

/-- `StringBuilderOptimization::find_next_append_char_call`. -/
def find_next_append_char_call (g : Graph) (c : Nat) : Option Nat :=
  match proj_out_or_null g c 0 with
  | none => none
  | some ctrl => findNextAux g c (outs g ctrl)

/-- All successors of `c` that pass the qualification test of
`find_next_append_char_call`, in the same enumeration order.  This is the
spec-side notion of "qualifying candidate" used to compare the walker
against the specification's exactly-one requirement. -/
def fusible_candidates (g : Graph) (c : Nat) : List Nat :=
  match proj_out_or_null g c 0 with
  | none => []
  | some ctrl => (outs g ctrl).filterMap (qualifies_as_next g c)

/-- `Compile::gvn_replace_by(a, b)` — modelled from the spec's graph edit
primitive "replace all uses of node A with node B": every input slot of
every node holding `a` is redirected to `b` (`b` is an edge, so possibly
null); `a` keeps its own input edges, exactly as in the C++. -/
def gvn_replace_by (g : Graph) (a : Nat) (b : Option Nat) : Graph :=
  ⟨g.nodes.map (fun nd =>
    { nd with ins := nd.ins.map (fun i => if i = some a then b else i) })⟩

/-- The node built by `create_append_char_char_call`: a call whose control
/ I-O / memory / frame-pointer / return-address edges are copied from
slots 0–4 of `original_call` and whose receiver and two char arguments
fill slots 5–7 (the eight `init_req` calls of the C++). -/
def newCallNode (g : Graph) (m : MethodRef) (orig : Nat)
    (receiver char1 char2 : Option Nat) : GNode :=
  { kind := NKind.callStaticJava, method := some m,
    ins := [getIn g orig 0, getIn g orig 1, getIn g orig 2,
            getIn g orig 3, getIn g orig 4, receiver, char1, char2] }

/-- `StringBuilderOptimization::create_append_char_char_call`: resolve the
two-char append on StringBuilder, then StringBuffer; on failure return the
unchanged graph and no node.  On success append the `newCallNode` to the
graph.  `_gvn->transform` (the external transform-and-intern service) is
modelled as registering the freshly built node: it returns the new node
itself whenever no structurally equal node pre-exists. -/
def create_append_char_char_call (g : Graph) (env : CiEnv) (orig : Nat)
    (receiver char1 char2 : Option Nat) : Graph × Option Nat :=
  match find_method_char_char env with
  | none => (g, none)
  | some m =>
    (⟨g.nodes ++ [newCallNode g m orig receiver char1 char2]⟩, some g.unique)

/-- `Unique_Node_List::push`: insert only when not already a member. -/
def pushUnique (wl : List Nat) (x : Nat) : List Nat :=
  if x ∈ wl then wl else wl ++ [x]

/-- Modelled from the spec: the worklist is an "insertion-order-independent
set of pending candidate nodes supporting push/pop/contains" whose element
type lives outside `src/` (only `push`, `pop` and `size` are called).  The
spec leaves the pop order open; the model pops the most recently inserted
element. -/
def popLast : List Nat → Option (Nat × List Nat)
  | [] => none
  | [x] => some (x, [])
  | x :: y :: rest =>
    match popLast (y :: rest) with
    | some (z, zs) => some (z, x :: zs)
    | none => none

/-- `StringBuilderOptimization::optimize_append_char_call`: read the
receiver and first char argument of `call`, look for the fusible
successor; when found, read its char argument, synthesize the fused call;
when synthesis succeeded, replace every use of `call` by the new call,
then replace every use of `next_call` by `next_call->in(TypeFunc::Parms)`
(evaluated after the first replacement, as in the C++ statement order),
and push the new call onto the worklist. -/
def optimize_append_char_call (g : Graph) (env : CiEnv) (wl : List Nat)
    (c : Nat) : Graph × List Nat :=
  let receiver := getIn g c 5
  let char1 := getIn g c 6
  match find_next_append_char_call g c with
  | none => (g, wl)
  | some nc =>
    let char2 := getIn g nc 6
    match create_append_char_char_call g env c receiver char1 char2 with
    | (g1, none) => (g1, wl)
    | (g1, some newId) =>
      let g2 := gvn_replace_by g1 c (some newId)
      let g3 := gvn_replace_by g2 nc (getIn g2 nc 5)
      (g3, pushUnique wl newId)

/-- The seeding scan of `optimize`: every node index, kept when the node is
a `CallStaticJavaNode` matching `is_append_char_call`. -/
def optimizeSeeds (g : Graph) : List Nat :=
  (List.range g.unique).filter (fun i =>
    isCallStaticJava g i && is_append_char_call g i)

/-- The worklist loop of `optimize`: pop, re-validate the single-char-append
match (the graph may have changed since the node was pushed), and attempt
the rewrite.  The loop is fuel-bounded; each rewrite pushes exactly one
node (the fused call, which never re-validates as a single-char append), so
`2 * unique + 1` pops always drain the worklist. -/
def optimizeLoop (env : CiEnv) : Nat → Graph → List Nat → Graph
  | 0, g, _ => g
  | fuel + 1, g, wl =>
    match popLast wl with
    | none => g
    | some (n, rest) =>
      if isCallStaticJava g n ∧ is_append_char_call g n then
        let p := optimize_append_char_call g env rest n
        optimizeLoop env fuel p.1 p.2
      else optimizeLoop env fuel g rest

/-- `StringBuilderOptimization::optimize`: gated on the
`OptimizeStringConcat` flag, then seed and drain the worklist. -/
def optimize (optimizeStringConcat : Bool) (env : CiEnv) (g : Graph) : Graph :=
  if optimizeStringConcat then
    optimizeLoop env (2 * g.unique + 1) g (optimizeSeeds g)
  else g

/-- The constant character carried by the node an edge points to, when that
node is an integer constant. -/
def charConst (g : Graph) (i : Option Nat) : Option Nat :=
  match i with
  | none => none
  | some n =>
    match nodeAt g n with
    | some nd =>
      match nd.kind with
      | NKind.conI v => some v
      | _ => none
    | none => none

/-- The characters appended by a call node, in argument order: the decoded
constants of its value-argument slots (6 onward). -/
def appendChars (g : Graph) (c : Nat) : List Nat :=
  match nodeAt g c with
  | none => []
  | some nd => (nd.ins.drop 6).filterMap (fun i => charConst g i)

/-- The resolved single-char `append` used by the concrete graphs. -/
def mChar : MethodRef := ⟨Klass.stringBuilderK, MName.appendM, MSig.charS⟩

/-- The two-char `append` produced by resolution on StringBuilder. -/
def mCharChar : MethodRef := ⟨Klass.stringBuilderK, MName.appendM, MSig.charCharS⟩

/-- A `ciEnv` on which `append(char,char)` resolves on StringBuilder. -/
def env1 : CiEnv := ⟨true, false⟩

/-- Concrete graph: three consecutive `append(char)` calls of 'a', 'b', 'c'
(97, 98, 99) on one receiver, each linked to the next through the
call's Control projection and a second Control projection, the shape
`find_next_append_char_call` walks.  Node 0 is the shared receiver, nodes
1–3 the char constants, node 4/7/10 the calls, 5/8/11 their Control
projections, 6/9 the intermediate Control projections. -/
def gABC : Graph := ⟨[
  ⟨NKind.other, none, []⟩,
  ⟨NKind.conI 97, none, []⟩,
  ⟨NKind.conI 98, none, []⟩,
  ⟨NKind.conI 99, none, []⟩,
  ⟨NKind.callStaticJava, some mChar,
    [none, none, none, none, none, some 0, some 1]⟩,
  ⟨NKind.proj 0, none, [some 4]⟩,
  ⟨NKind.proj 0, none, [some 5]⟩,
  ⟨NKind.callStaticJava, some mChar,
    [some 6, none, none, none, none, some 0, some 2]⟩,
  ⟨NKind.proj 0, none, [some 7]⟩,
  ⟨NKind.proj 0, none, [some 8]⟩,
  ⟨NKind.callStaticJava, some mChar,
    [some 9, none, none, none, none, some 0, some 3]⟩,
  ⟨NKind.proj 0, none, [some 10]⟩]⟩

/-- Concrete graph: one `append(char)` call (node 3) whose Control
projection (node 4) has two Control-projection uses (nodes 5 and 6), each
reaching its own qualifying `append(char)` call (nodes 7 and 8) on the same
receiver — two qualifying fusible candidates. -/
def gDup : Graph := ⟨[
  ⟨NKind.other, none, []⟩,
  ⟨NKind.conI 65, none, []⟩,
  ⟨NKind.conI 66, none, []⟩,
  ⟨NKind.callStaticJava, some mChar,
    [none, none, none, none, none, some 0, some 1]⟩,
  ⟨NKind.proj 0, none, [some 3]⟩,
  ⟨NKind.proj 0, none, [some 4]⟩,
  ⟨NKind.proj 0, none, [some 4]⟩,
  ⟨NKind.callStaticJava, some mChar,
    [some 5, none, none, none, none, some 0, some 2]⟩,
  ⟨NKind.callStaticJava, some mChar,
    [some 6, none, none, none, none, some 0, some 2]⟩]⟩

/-- Concrete graph on which the fusion pass is not idempotent.  Nodes 4
(`cF`) and 7 (`nc`) are fusible appends whose shared receiver edge points
at node 11 (`cR`) — itself an `append(char)` call whose own receiver is
node 0, like that of node 10 (`c3`).  `cR` initially has no Control
projection among its uses, so popping it does nothing; fusing `cF` with
`nc` then redirects the uses of `nc` — including its Control projection
(node 8) — onto `cR`, which makes `cR` fusible with `c3`, but only a later
run still holds `cR` on its worklist. -/
def gNonIdem : Graph := ⟨[
  ⟨NKind.other, none, []⟩,
  ⟨NKind.conI 70, none, []⟩,
  ⟨NKind.conI 71, none, []⟩,
  ⟨NKind.conI 72, none, []⟩,
  ⟨NKind.callStaticJava, some mChar,
    [none, none, none, none, none, some 11, some 1]⟩,
  ⟨NKind.proj 0, none, [some 4]⟩,
  ⟨NKind.proj 0, none, [some 5]⟩,
  ⟨NKind.callStaticJava, some mChar,
    [some 6, none, none, none, none, some 11, some 2]⟩,
  ⟨NKind.proj 0, none, [some 7]⟩,
  ⟨NKind.proj 0, none, [some 8]⟩,
  ⟨NKind.callStaticJava, some mChar,
    [some 9, none, none, none, none, some 0, some 3]⟩,
  ⟨NKind.callStaticJava, some mChar,
    [none, none, none, none, none, some 0, some 1]⟩]⟩

/-- A graph with no matching candidate at all. -/
def gEmpty : Graph := ⟨[⟨NKind.other, none, []⟩]⟩

end SBOpt

/-- Concrete indexer: the single-byte constant string "AB" (bytes 65, 66)
with constant index 1. -/
def sAB : SIdx.Indexer :=
  ⟨some ⟨some ⟨true, [65, 66]⟩, SIdx.Coder.latin1⟩, some 1⟩

section BitBridge

/-- Disjoint-bit recombination: or-ing a value below 256 with a value
shifted left by one byte is plain addition. -/
theorem lor_low_byte (a b : Nat) (ha : a < 256) :
    a ||| (b <<< 8) = a + 256 * b := by
  have h8 : a < 2 ^ 8 := by omega
  refine Nat.eq_of_testBit_eq fun j => ?_
  rw [Nat.testBit_lor, Nat.testBit_shiftLeft,
    show a + 256 * b = 2 ^ 8 * b + a by ring,
    Nat.testBit_mul_pow_two_add b h8 j]
  by_cases hj : j < 8
  · simp [hj, Nat.not_le.mpr hj]
  · have hfa : a.testBit j = false :=
      Nat.testBit_lt_two_pow
        (lt_of_lt_of_le h8 (Nat.pow_le_pow_right (by omega) (by omega)))
    simp [hj, Nat.le_of_not_lt hj, hfa]

/-- Mirror image of `lor_low_byte` for the big-endian shift assignment. -/
theorem lor_high_byte (a b : Nat) (hb : b < 256) :
    (a <<< 8) ||| b = 256 * a + b := by
  rw [Nat.lor_comm, lor_low_byte b a hb]
  ring

/-- A sign-extended byte masked with 0xFF is below 256. -/
theorem masked_byte_lt (x : Int) : (x % 256).toNat < 256 := by
  have h1 : (0 : Int) ≤ x % 256 := Int.emod_nonneg x (by norm_num)
  have h2 : x % 256 < 256 := Int.emod_lt_of_pos x (by norm_num)
  omega

end BitBridge

/-- Claim C5: `can_optimize` returns true iff the string operand is a graph
constant denoting a known immutable string (a constant oop whose backing
buffer is a non-null type array), the index operand is a graph constant
integer, and the index lies in `[0, decoded_length)`, where
`decoded_length` is the buffer length for single-byte encoding and the
buffer length divided by two for double-byte encoding; in particular index
-1 and index equal to `decoded_length` yield false. -/
theorem sidx_can_optimize_iff (s : SIdx.Indexer) :
    SIdx.can_optimize s = true ↔
      ∃ so arr i, s.str = some so ∧ so.value = some arr ∧
        arr.isTypeArray = true ∧ s.index = some i ∧ 0 ≤ i ∧
        i < (SIdx.decodedLength so arr : Int) := by
  obtain ⟨strO, idxO⟩ := s
  cases strO with
  | none => simp [SIdx.can_optimize, SIdx.is_constant_string]
  | some so =>
    obtain ⟨valO, coder⟩ := so
    cases idxO with
    | none =>
      simp [SIdx.can_optimize, SIdx.is_constant_string, SIdx.is_valid_range]
    | some i =>
      cases valO with
      | none =>
        simp [SIdx.can_optimize, SIdx.is_constant_string, SIdx.is_valid_range]
      | some arr =>
        simp only [SIdx.can_optimize, SIdx.is_constant_string, SIdx.is_valid_range,
          SIdx.decodedLength, Bool.and_eq_true, Option.isSome_some, true_and,
          Option.some.injEq, decide_eq_true_eq]
        constructor
        · intro h
          split at h
          · cases h
          · split at h
            · cases h
            · rename_i hnneg hta
              refine ⟨⟨some arr, coder⟩, arr, i, rfl, rfl, ?_, rfl, by omega, ?_⟩
              · simpa using hta
              · simpa using h
        · rintro ⟨so, arr2, i2, hso, hv, hta, hi2, h0, hlt⟩
          subst hso
          dsimp only at hv hlt
          cases hv
          subst hi2
          rw [if_neg (by omega), if_neg (by simp [hta])]
          simpa using hlt

/-- Claim C6: under the precondition `can_optimize`, the fold produces for
single-byte encoding the byte at position `index` zero-extended to
character width, and for double-byte encoding the 16-bit code unit that
combines the bytes at positions `2*index` and `2*index+1` according to the
host's fixed byte-ordering convention (low byte at the even position on a
little-endian host, high byte there otherwise). -/
theorem sidx_fold_eval (le : Bool) (s : SIdx.Indexer) (so : SIdx.StrOop)
    (arr : SIdx.ValueArr) (i : Int)
    (hs : s.str = some so) (hv : so.value = some arr) (hi : s.index = some i)
    (hc : SIdx.can_optimize s = true) :
    SIdx.optimize le s = some (
      if so.coder = SIdx.Coder.latin1 then
        ((SIdx.byte_at arr i) % 256).toNat
      else
        SIdx.combineUTF16 le ((SIdx.byte_at arr (i * 2)) % 256).toNat
          ((SIdx.byte_at arr (i * 2 + 1)) % 256).toNat) := by
  unfold SIdx.optimize
  rw [if_pos hc]
  obtain ⟨strO, idxO⟩ := s
  dsimp only at hs hi
  subst hs
  subst hi
  obtain ⟨valO, coder⟩ := so
  dsimp only at hv ⊢
  subst hv
  unfold SIdx.generate_optimized_code
  dsimp only
  cases coder with
  | latin1 => rfl
  | utf16 =>
    cases le with
    | true =>
      show some (((SIdx.byte_at arr (i * 2)) % 256).toNat <<< 0 |||
          ((SIdx.byte_at arr (i * 2 + 1)) % 256).toNat <<< 8) =
        some (((SIdx.byte_at arr (i * 2)) % 256).toNat +
          256 * ((SIdx.byte_at arr (i * 2 + 1)) % 256).toNat)
      rw [Nat.shiftLeft_zero, lor_low_byte _ _ (masked_byte_lt _)]
    | false =>
      show some (((SIdx.byte_at arr (i * 2)) % 256).toNat <<< 8 |||
          ((SIdx.byte_at arr (i * 2 + 1)) % 256).toNat <<< 0) =
        some (256 * ((SIdx.byte_at arr (i * 2)) % 256).toNat +
          ((SIdx.byte_at arr (i * 2 + 1)) % 256).toNat)
      rw [Nat.shiftLeft_zero, lor_high_byte _ _ (masked_byte_lt _)]

/-- Witness for C6: the single-byte constant string "AB" at constant
index 1 folds to 66, the character code of B. -/
theorem sidx_fold_eval_witness : SIdx.optimize true sAB = some 66 := by
  have h := sidx_fold_eval true sAB ⟨some ⟨true, [65, 66]⟩, SIdx.Coder.latin1⟩
    ⟨true, [65, 66]⟩ 1 rfl rfl rfl (by decide)
  rw [h]
  decide

namespace SBOpt

theorem findNextAux_eq_head (g : Graph) (c : Nat) (l : List Nat) :
    findNextAux g c l = (l.filterMap (qualifies_as_next g c)).head? := by
  induction l with
  | nil => rfl
  | cons u rest ih =>
    rw [findNextAux, List.filterMap_cons]
    cases h : qualifies_as_next g c u with
    | none => simpa using ih
    | some nx => simp

theorem qualifies_spec (g : Graph) (c u nx : Nat)
    (h : qualifies_as_next g c u = some nx) :
    unique_ctrl_out_or_null g u = some nx ∧ getIn g nx 5 = getIn g c 5 := by
  unfold qualifies_as_next at h
  by_cases hp : isProjCon g u 0 = true
  · rw [if_pos hp] at h
    cases hq : unique_ctrl_out_or_null g u with
    | none => rw [hq] at h; cases h
    | some v =>
      rw [hq] at h
      dsimp only at h
      by_cases hcond : isCallStaticJava g v = true ∧ is_append_char_call g v = true ∧
          getIn g v 5 = getIn g c 5
      · rw [if_pos hcond] at h
        cases h
        exact ⟨rfl, hcond.2.2⟩
      · rw [if_neg hcond] at h
        cases h
  · rw [if_neg hp] at h
    cases h

theorem findNextAux_some (g : Graph) (c : Nat) (l : List Nat) (nc : Nat)
    (h : findNextAux g c l = some nc) :
    ∃ u, qualifies_as_next g c u = some nc := by
  induction l with
  | nil => cases h
  | cons u rest ih =>
    rw [findNextAux] at h
    cases hq : qualifies_as_next g c u with
    | none => rw [hq] at h; exact ih h
    | some nx =>
      rw [hq] at h
      cases h
      exact ⟨u, hq⟩

theorem find_next_spec (g : Graph) (c nc : Nat)
    (h : find_next_append_char_call g c = some nc) :
    ∃ u, qualifies_as_next g c u = some nc := by
  unfold find_next_append_char_call at h
  cases hp : proj_out_or_null g c 0 with
  | none => rw [hp] at h; cases h
  | some ctrl => rw [hp] at h; exact findNextAux_some g c _ nc h

theorem mem_outs_lt (g : Graph) (n m : Nat) (h : m ∈ outs g n) :
    m < g.unique := by
  unfold outs at h
  exact List.mem_range.mp (List.mem_filter.mp h).1

theorem uniqueCtrlOutAux_mem (g : Graph) (self : Nat) (l : List Nat) :
    ∀ acc v, uniqueCtrlOutAux g self l acc = some v → v ∈ l ∨ acc = some v := by
  induction l with
  | nil => intro acc v h; exact Or.inr h
  | cons u rest ih =>
    intro acc v h
    simp only [uniqueCtrlOutAux] at h
    by_cases hc : is_CFG g u = true ∧ u ≠ self
    · rw [if_pos hc] at h
      by_cases hf : acc ≠ none ∧ acc ≠ some u
      · rw [if_pos hf] at h
        cases h
      · rw [if_neg hf] at h
        rcases ih _ _ h with h1 | h2
        · exact Or.inl (List.mem_cons_of_mem _ h1)
        · cases h2
          exact Or.inl (List.mem_cons_self _ _)
    · rw [if_neg hc] at h
      rcases ih _ _ h with h1 | h2
      · exact Or.inl (List.mem_cons_of_mem _ h1)
      · exact Or.inr h2

theorem unique_ctrl_out_lt (g : Graph) (u v : Nat)
    (h : unique_ctrl_out_or_null g u = some v) : v < g.unique := by
  unfold unique_ctrl_out_or_null at h
  rcases uniqueCtrlOutAux_mem g u (outs g u) none v h with h1 | h2
  · exact mem_outs_lt g u v h1
  · cases h2

theorem find_next_lt (g : Graph) (c nc : Nat)
    (h : find_next_append_char_call g c = some nc) : nc < g.unique := by
  obtain ⟨u, hu⟩ := find_next_spec g c nc h
  exact unique_ctrl_out_lt g u nc (qualifies_spec g c u nc hu).1

theorem nodeAt_gvn_replace_by (g : Graph) (a : Nat) (b : Option Nat) (n : Nat) :
    nodeAt (gvn_replace_by g a b) n =
      (nodeAt g n).map (fun nd =>
        { nd with ins := nd.ins.map (fun i => if i = some a then b else i) }) := by
  unfold nodeAt gvn_replace_by
  simp [List.getElem?_map]

theorem getIn_gvn_replace_by (g : Graph) (a : Nat) (b : Option Nat) (n k : Nat) :
    getIn (gvn_replace_by g a b) n k =
      if getIn g n k = some a then b else getIn g n k := by
  unfold getIn
  rw [nodeAt_gvn_replace_by]
  cases nodeAt g n with
  | none => simp
  | some nd =>
    simp only [Option.map_some']
    rw [List.getD_eq_getElem?_getD, List.getD_eq_getElem?_getD, List.getElem?_map]
    cases h : nd.ins[k]? with
    | none => simp
    | some v => simp

theorem nodeAt_append_self (g : Graph) (x : GNode) :
    nodeAt ⟨g.nodes ++ [x]⟩ g.unique = some x := by
  unfold nodeAt Graph.unique
  rw [List.getElem?_append_right (Nat.le_refl _)]
  simp

theorem nodeAt_append_lt (g : Graph) (x : GNode) (n : Nat) (h : n < g.unique) :
    nodeAt ⟨g.nodes ++ [x]⟩ n = nodeAt g n := by
  unfold nodeAt Graph.unique at *
  rw [List.getElem?_append, if_pos h]

theorem getIn_append_lt (g : Graph) (x : GNode) (n k : Nat) (h : n < g.unique) :
    getIn ⟨g.nodes ++ [x]⟩ n k = getIn g n k := by
  unfold getIn
  rw [nodeAt_append_lt g x n h]

theorem getIn_some_lt (g : Graph) (n k v : Nat) (h : getIn g n k = some v) :
    n < g.unique := by
  by_contra hn
  have hnone : nodeAt g n = none := by
    unfold nodeAt
    exact List.getElem?_eq_none (by unfold Graph.unique at hn; omega)
  unfold getIn at h
  rw [hnone] at h
  cases h

end SBOpt

namespace SBOpt

/-- Claim C1 (amended): `find_next_append_char_call` returns the first
qualifying candidate in def-use enumeration order — equivalently, the head
of the list of all qualifying candidates — and "not found" exactly when no
candidate qualifies.  It does not check that the qualifying candidate is
unique; only the per-successor control ambiguity check (inside
`unique_ctrl_out_or_null`) is conservative. -/
theorem find_next_returns_first_candidate (g : Graph) (c : Nat) :
    find_next_append_char_call g c = (fusible_candidates g c).head? := by
  unfold find_next_append_char_call fusible_candidates
  cases proj_out_or_null g c 0 with
  | none => rfl
  | some ctrl => exact findNextAux_eq_head g c (outs g ctrl)

/-- Counterexample to claim C1 as stated: in `gDup` the call node 3 has two
qualifying candidates (nodes 7 and 8) reachable from its control output,
yet `find_next_append_char_call` returns the first (node 7) instead of
"not found". -/
theorem find_next_ambiguity_cex :
    (fusible_candidates gDup 3).length = 2 ∧
      find_next_append_char_call gDup 3 = some 7 := by
  decide

/-- Claim C4: a candidate is accepted only when its receiver value-input
edge (slot 5) is the identical producer node as the receiver edge of the
first call; hence two control-adjacent appends on distinct builder
instances are never fused. -/
theorem find_next_receiver_identity (g : Graph) (c nc : Nat)
    (h : find_next_append_char_call g c = some nc) :
    getIn g nc 5 = getIn g c 5 := by
  obtain ⟨u, hu⟩ := find_next_spec g c nc h
  exact (qualifies_spec g c u nc hu).2

/-- Witness for C4 at a concrete graph and successor. -/
theorem find_next_receiver_identity_witness :
    find_next_append_char_call gDup 3 = some 7 ∧
      getIn gDup 7 5 = getIn gDup 3 5 :=
  ⟨by decide, find_next_receiver_identity gDup 3 7 (by decide)⟩

/-- Claim C10: with the `OptimizeStringConcat` flag off, `optimize` returns
immediately without scanning or rewriting, leaving the graph unchanged. -/
theorem optimize_gated_on_flag (env : CiEnv) (g : Graph) :
    optimize false env g = g := rfl

end SBOpt

namespace SBOpt

/-- Claim C2: when a fusion rewrite is performed on a validated call `c`
with found successor `nc` (and the receiver and argument edges do not
alias the two calls themselves), the synthesized node — at the fresh index
`g.unique` in the resulting graph — is a call whose control, I/O, memory,
frame-pointer and return-address edges (slots 0–4) are copied from `c`,
whose receiver edge is the receiver edge of `c`, and whose two character
arguments are, in order, the character argument of `c` (slot 6) and the
character argument of `nc`. -/
theorem fused_call_edges (g : Graph) (env : CiEnv) (wl : List Nat)
    (c nc : Nat) (m : MethodRef)
    (hfind : find_next_append_char_call g c = some nc)
    (hres : find_method_char_char env = some m)
    (hal : ∀ k, k < 7 → getIn g c k ≠ some c ∧ getIn g c k ≠ some nc)
    (hal2 : getIn g nc 6 ≠ some c ∧ getIn g nc 6 ≠ some nc) :
    nodeAt (optimize_append_char_call g env wl c).1 g.unique =
      some { kind := NKind.callStaticJava, method := some m,
             ins := [getIn g c 0, getIn g c 1, getIn g c 2, getIn g c 3,
                     getIn g c 4, getIn g c 5, getIn g c 6, getIn g nc 6] } := by
  have h0 := hal 0 (by omega)
  have h1 := hal 1 (by omega)
  have h2 := hal 2 (by omega)
  have h3 := hal 3 (by omega)
  have h4 := hal 4 (by omega)
  have h5 := hal 5 (by omega)
  have h6 := hal 6 (by omega)
  unfold optimize_append_char_call
  rw [hfind]
  unfold create_append_char_char_call
  rw [hres]
  dsimp only [newCallNode]
  rw [nodeAt_gvn_replace_by, nodeAt_gvn_replace_by, nodeAt_append_self]
  simp only [Option.map_some', List.map_cons, List.map_nil]
  simp only [if_neg h0.1, if_neg h1.1, if_neg h2.1, if_neg h3.1, if_neg h4.1,
    if_neg h5.1, if_neg h6.1, if_neg hal2.1]
  simp only [if_neg h0.2, if_neg h1.2, if_neg h2.2, if_neg h3.2, if_neg h4.2,
    if_neg h5.2, if_neg h6.2, if_neg hal2.2]

/-- Witness for C2 on the three-append graph, fusing node 7 with node 10. -/
theorem fused_call_edges_witness :
    nodeAt (optimize_append_char_call gABC env1 [4] 7).1 gABC.unique =
      some { kind := NKind.callStaticJava, method := some mCharChar,
             ins := [getIn gABC 7 0, getIn gABC 7 1, getIn gABC 7 2,
                     getIn gABC 7 3, getIn gABC 7 4, getIn gABC 7 5,
                     getIn gABC 7 6, getIn gABC 10 6] } :=
  fused_call_edges gABC env1 [4] 7 10 mCharChar (by decide) (by decide)
    (by decide) (by decide)

end SBOpt

namespace SBOpt

theorem gvn_replace_no_ref (g : Graph) (a : Nat) (b : Option Nat)
    (hb : b ≠ some a) : ∀ n k, getIn (gvn_replace_by g a b) n k ≠ some a := by
  intro n k
  rw [getIn_gvn_replace_by]
  split
  · exact hb
  · rename_i hcond
    exact hcond

theorem gvn_replace_hits (g : Graph) (a : Nat) (b : Option Nat) (n k : Nat)
    (h : getIn g n k = some a) : getIn (gvn_replace_by g a b) n k = b := by
  rw [getIn_gvn_replace_by, if_pos h]

theorem gvn_replace_miss (g : Graph) (a : Nat) (b : Option Nat) (n k : Nat)
    (h : getIn g n k ≠ some a) :
    getIn (gvn_replace_by g a b) n k = getIn g n k := by
  rw [getIn_gvn_replace_by, if_neg h]

theorem splice_double_replace (g1 : Graph) (c nc newId : Nat)
    (hne : nc ≠ c)
    (h5a : getIn g1 nc 5 ≠ some nc) (h5b : getIn g1 nc 5 ≠ some c) :
    (∀ n k, getIn (gvn_replace_by (gvn_replace_by g1 c (some newId)) nc
        (getIn (gvn_replace_by g1 c (some newId)) nc 5)) n k ≠ some nc) ∧
      (∀ n k, getIn g1 n k = some nc →
        getIn (gvn_replace_by (gvn_replace_by g1 c (some newId)) nc
          (getIn (gvn_replace_by g1 c (some newId)) nc 5)) n k =
          getIn g1 nc 5) := by
  have hr : getIn (gvn_replace_by g1 c (some newId)) nc 5 = getIn g1 nc 5 :=
    gvn_replace_miss _ _ _ _ _ h5b
  constructor
  · intro n k
    apply gvn_replace_no_ref
    rw [hr]
    exact h5a
  · intro n k h
    have hhit : getIn (gvn_replace_by g1 c (some newId)) n k = some nc := by
      rw [gvn_replace_miss _ _ _ _ _ (by rw [h]; simp [hne])]
      exact h
    rw [gvn_replace_hits _ _ _ _ _ hhit, hr]

/-- Claim C3 (amended): after a successful fusion rewrite, the superseded
second call `nc` is removed by redirecting every one of its uses to its
own receiver input `nc->in(TypeFunc::Parms)` (slot 5) — not to its control
predecessor — and no node input in the resulting graph still references
`nc` (given that the receiver edge of `nc` is neither `nc` itself nor the
first call). -/
theorem next_call_spliced_to_receiver (g : Graph) (env : CiEnv)
    (wl : List Nat) (c nc : Nat) (m : MethodRef)
    (hfind : find_next_append_char_call g c = some nc)
    (hres : find_method_char_char env = some m)
    (hne : nc ≠ c)
    (h5a : getIn g nc 5 ≠ some nc)
    (h5b : getIn g nc 5 ≠ some c) :
    (∀ n k, getIn (optimize_append_char_call g env wl c).1 n k ≠ some nc) ∧
      (∀ n k, getIn g n k = some nc →
        getIn (optimize_append_char_call g env wl c).1 n k = getIn g nc 5) := by
  have hnclt : nc < g.unique := find_next_lt g c nc hfind
  unfold optimize_append_char_call
  rw [hfind]
  unfold create_append_char_char_call
  rw [hres]
  dsimp only
  have hgle : getIn (⟨g.nodes ++ [newCallNode g m c (getIn g c 5)
        (getIn g c 6) (getIn g nc 6)]⟩ : Graph) nc 5 = getIn g nc 5 :=
    getIn_append_lt _ _ _ _ hnclt
  have key := splice_double_replace
    (⟨g.nodes ++ [newCallNode g m c (getIn g c 5) (getIn g c 6)
      (getIn g nc 6)]⟩ : Graph) c nc g.unique hne
    (by rw [hgle]; exact h5a) (by rw [hgle]; exact h5b)
  constructor
  · exact key.1
  · intro n k h
    have hnlt : n < g.unique := getIn_some_lt g n k nc h
    have h1 : getIn (⟨g.nodes ++ [newCallNode g m c (getIn g c 5)
        (getIn g c 6) (getIn g nc 6)]⟩ : Graph) n k = some nc := by
      rw [getIn_append_lt _ _ _ _ hnlt]
      exact h
    rw [key.2 n k h1, hgle]

/-- Witness for C3: fusing node 7 with node 10 in the three-append graph;
the former use of node 10 (the projection node 11) now reads the receiver
edge of node 10, and nothing references node 10 afterwards. -/
theorem next_call_spliced_to_receiver_witness :
    getIn (optimize_append_char_call gABC env1 [4] 7).1 11 0 =
        getIn gABC 10 5 ∧
      getIn (optimize_append_char_call gABC env1 [4] 7).1 11 0 ≠ some 10 := by
  have h := next_call_spliced_to_receiver gABC env1 [4] 7 10 mCharChar
    (by decide) (by decide) (by decide) (by decide) (by decide)
  exact ⟨h.2 11 0 (by decide), h.1 11 0⟩

/-- Counterexample to claim C3 as stated: in the run on `gABC`, node 11 —
the sole use of the removed second call (node 10) — is redirected to node
0, the receiver edge of node 10, and not to node 9, the control
predecessor `in(0)` of node 10. -/
theorem next_call_redirect_target_cex :
    getIn (optimize true env1 gABC) 11 0 = some 0 ∧
      getIn gABC 11 0 = some 10 ∧
      getIn gABC 10 0 = some 9 ∧
      getIn gABC 10 5 = some 0 ∧
      getIn (optimize true env1 gABC) 11 0 ≠ getIn gABC 10 0 := by
  decide

end SBOpt

namespace SBOpt

/-- Claim C7 (amended): on the three-append chain 'a','b','c' (`gABC`),
the drained worklist leaves a graph whose decoded append output in control
order is still "abc", never reordered: exactly one fused node (node 12)
was synthesized, carrying 'b' then 'c' in argument order, the first append
(node 4, 'a') remains a live single-char append, and node 4's control
chain leads to node 12.  The pair fused is the one whose first element is
popped first from the worklist (here the later pair 'b','c'); no further
chaining onto the fused node occurs, because the two-char append no longer
matches `is_append_char_call`. -/
theorem abc_chain_result :
    (optimize true env1 gABC).unique = 13 ∧
      appendChars (optimize true env1 gABC) 4 ++
        appendChars (optimize true env1 gABC) 12 = [97, 98, 99] ∧
      is_append_char_call (optimize true env1 gABC) 4 = true ∧
      is_append_char_char_call (optimize true env1 gABC) 12 = true ∧
      getIn (optimize true env1 gABC) 12 0 = some 6 ∧
      getIn (optimize true env1 gABC) 6 0 = some 5 ∧
      getIn (optimize true env1 gABC) 5 0 = some 4 := by
  decide

/-- Counterexample to claim C7 as stated: after the worklist of `gABC`
empties, exactly one node was synthesized (`unique` grew from 12 to 13
only), the fused pair is the later pair 'b','c' — not the left pair — and
the first append 'a' (node 4) is still an unfused single-char append call:
no "further chaining" onto the re-queued fused node ever occurred, and the
folding was not "pairwise left to right". -/
theorem abc_chain_no_chaining_cex :
    (optimize true env1 gABC).unique = 13 ∧
      is_append_char_call (optimize true env1 gABC) 4 = true ∧
      appendChars (optimize true env1 gABC) 12 = [98, 99] := by
  decide

theorem step_no_resolution (env : CiEnv)
    (hm : find_method_char_char env = none)
    (g0 : Graph) (wl : List Nat) (c : Nat) :
    optimize_append_char_call g0 env wl c = (g0, wl) := by
  unfold optimize_append_char_call
  cases hf : find_next_append_char_call g0 c with
  | none => rfl
  | some nc =>
    unfold create_append_char_char_call
    rw [hm]

theorem loop_no_resolution (env : CiEnv)
    (hm : find_method_char_char env = none) :
    ∀ (fuel : Nat) (g0 : Graph) (wl : List Nat),
      optimizeLoop env fuel g0 wl = g0 := by
  intro fuel
  induction fuel with
  | zero => intro g0 wl; rfl
  | succ f ih =>
    intro g0 wl
    simp only [optimizeLoop]
    cases hp : popLast wl with
    | none => rfl
    | some p =>
      obtain ⟨n, rest⟩ := p
      show (if isCallStaticJava g0 n = true ∧ is_append_char_call g0 n = true
          then optimizeLoop env f (optimize_append_char_call g0 env rest n).1
            (optimize_append_char_call g0 env rest n).2
          else optimizeLoop env f g0 rest) = g0
      by_cases hc : isCallStaticJava g0 n = true ∧ is_append_char_call g0 n = true
      · rw [if_pos hc, step_no_resolution env hm g0 rest n]
        exact ih g0 rest
      · rw [if_neg hc]
        exact ih g0 rest

/-- Claim C8: when the two-char append target resolves on neither the
builder class nor the buffer class, `optimize` completes without modifying
the graph at all (in particular both original single-char append calls are
untouched) and without signaling an error. -/
theorem optimize_no_resolution (env : CiEnv) (g : Graph)
    (h1 : env.sbHasCharChar = false) (h2 : env.sbufHasCharChar = false) :
    optimize true env g = g := by
  have hm : find_method_char_char env = none := by
    unfold find_method_char_char
    rw [h1, h2]
    rfl
  unfold optimize
  rw [if_pos rfl]
  exact loop_no_resolution env hm _ g _

/-- Witness for C8: on the three-append graph with a resolution
environment where neither class offers `append(char,char)`, `optimize`
is the identity. -/
theorem optimize_no_resolution_witness :
    optimize true ⟨false, false⟩ gABC = gABC :=
  optimize_no_resolution ⟨false, false⟩ gABC rfl rfl

theorem optimizeLoop_nil (env : CiEnv) (fuel : Nat) (g0 : Graph) :
    optimizeLoop env fuel g0 [] = g0 := by
  cases fuel with
  | zero => rfl
  | succ f => rfl

/-- Claim C9 (amended): invoking `optimize` on a graph with zero matching
candidates is a no-op.  Full idempotence over arbitrary graphs does not
hold (see the counterexample): when a removed call's receiver input is
itself an append-candidate call, the splice hands that call new control
uses, enabling a fusion that only a second run performs. -/
theorem optimize_no_candidates (env : CiEnv) (g : Graph)
    (h : ∀ n, n < g.unique →
      ¬(isCallStaticJava g n = true ∧ is_append_char_call g n = true)) :
    optimize true env g = g := by
  have hseeds : optimizeSeeds g = [] := by
    unfold optimizeSeeds
    rw [List.filter_eq_nil_iff]
    intro a ha
    rw [List.mem_range] at ha
    rw [Bool.and_eq_true]
    exact h a ha
  unfold optimize
  rw [if_pos rfl, hseeds, optimizeLoop_nil]

/-- Witness for C9 on a graph with no candidate at all. -/
theorem optimize_no_candidates_witness :
    optimize true env1 gEmpty = gEmpty :=
  optimize_no_candidates env1 gEmpty (by decide)

/-- Counterexample to claim C9 as stated: on `gNonIdem` the first run
performs one fusion (13 nodes), and a second run immediately after
performs another one (14 nodes), so running the pass twice does not yield
the same graph as running it once. -/
theorem optimize_not_idempotent_cex :
    optimize true env1 (optimize true env1 gNonIdem) ≠
      optimize true env1 gNonIdem := by
  decide

end SBOpt
